import Mathlib

/-!
Verification of the Aligned batcher (aligned-batcher crate) against its
natural-language specification.

The relevant Rust source is shallowly embedded here:
* `src/batcher/aligned-batcher/src/types/batch_queue.rs` — the priority
  comparator, `calculate_batch_size`, `try_build_batch` and
  `calculate_fee_per_proof`;
* `src/batcher/aligned-batcher/src/lib.rs` — the admission pipeline
  (`handle_submit_proof_msg`), the replacement path
  (`handle_replacement_message`), `verify_user_has_enough_balance`,
  `add_to_batch`, `handle_nonpaying_msg`, `remove_proofs_from_queue`, and the
  block-subscription dedup loop of `listen_new_blocks_retryable`.

Machine integers are embedded as `Nat` with explicit `% 2 ^ w` at the points
where the Rust arithmetic wraps (`u128` inside `calculate_fee_per_proof`,
`U256` for the final fee product).  `cbor_serialize` is an external library
function (serde_cbor); it is deterministic per value, so each queue entry
carries the length of its serialization result as `Option Nat` (`none` models
a serialization error).  Entries are keyed by `(sender, nonce)` exactly as the
Rust `Hash`/`PartialEq` impls for `BatchQueueEntry` do.
-/

namespace AlignedBatcher

/-- Constant `CBOR_ARRAY_MAX_OVERHEAD` from aligned-sdk `core/constants.rs`. -/
def CBOR_ARRAY_MAX_OVERHEAD : Nat := 9

/-- Constant `ADDITIONAL_SUBMISSION_GAS_COST_PER_PROOF` from aligned-sdk
`core/constants.rs`. -/
def ADDITIONAL_SUBMISSION_GAS_COST_PER_PROOF : Nat := 2000

/-- Constant `DEFAULT_MAX_FEE_PER_PROOF = ADDITIONAL_SUBMISSION_GAS_COST_PER_PROOF
* 100_000_000_000` from aligned-sdk `core/constants.rs`. -/
def DEFAULT_MAX_FEE_PER_PROOF : Nat :=
  ADDITIONAL_SUBMISSION_GAS_COST_PER_PROOF * 100000000000

/-- Modulus of the Rust `u128` type. -/
def U128_MOD : Nat := 2 ^ 128

/-- Modulus of the ethers `U256` type. -/
def U256_MOD : Nat := 2 ^ 256

/-- `U256::MAX`. -/
def U256_MAX : Nat := U256_MOD - 1

/-- Projection of the Rust `BatchQueueEntry` (batch_queue.rs) to the fields the
verified claims read.  `serializedVDataLen` is the length of
`cbor_serialize(&entry.nonced_verification_data.verification_data)`, with
`none` modelling a serialization error; `max_fee` and `nonce` are the fields of
the embedded `NoncedVerificationData`. -/
structure BatchQueueEntry where
  sender : Nat
  nonce : Nat
  max_fee : Nat
  serializedVDataLen : Option Nat
  deriving Repr, DecidableEq

/-- The Rust `BatchQueueEntryPriority` record (batch_queue.rs). -/
structure BatchQueueEntryPriority where
  max_fee : Nat
  nonce : Nat
  deriving Repr, DecidableEq

/-- The `Ord` implementation for `BatchQueueEntryPriority`
(batch_queue.rs lines 104-120): compare `other.max_fee` against
`self.max_fee` (so a lower fee is the greater priority), and on equality
compare `self.nonce` against `other.nonce` (so a higher nonce is the greater
priority).  The priority queue pops greatest priority first. -/
def priorityCmp (self other : BatchQueueEntryPriority) : Ordering :=
  let ord := compare other.max_fee self.max_fee
  if ord = Ordering.eq then compare self.nonce other.nonce else ord

/-- The priority under which every call site pushes an entry:
`BatchQueueEntryPriority::new(max_fee, nonce)` built from the entry's own
fields. -/
def entryPriority (e : BatchQueueEntry) : BatchQueueEntryPriority :=
  ⟨e.max_fee, e.nonce⟩

/-- A list of entries is in pop order when successive pops of the priority
queue would return it left to right: every earlier element has priority at
least as great (under `priorityCmp`) as every later one. -/
def popOrdered (q : List BatchQueueEntry) : Prop :=
  q.Pairwise fun a b => priorityCmp (entryPriority a) (entryPriority b) ≠ Ordering.lt

instance (q : List BatchQueueEntry) : Decidable (popOrdered q) := by
  unfold popOrdered; infer_instance

/-- Errors surfaced by the embedded batch construction.  `BatchCostTooHigh`
and `SerializationError` are the `BatcherError` variants the Rust code
returns; `UnwrapFailure` models the panic of the `.unwrap()` inside the peel
loop and `DivByZero` the panic of the `u128` division in
`calculate_fee_per_proof`. -/
inductive BatcherError where
  | BatchCostTooHigh
  | SerializationError
  | UnwrapFailure
  | DivByZero
  deriving Repr, DecidableEq

/-- Sum of the serialized verification-data lengths over the queue, failing if
any entry fails to serialize — the `try_fold` of `calculate_batch_size`
(batch_queue.rs lines 125-147). -/
def sumVDataSizes : List BatchQueueEntry → Option Nat
  | [] => some 0
  | e :: rest =>
    match e.serializedVDataLen, sumVDataSizes rest with
    | some n, some m => some (n + m)
    | _, _ => none

/-- `calculate_batch_size` (batch_queue.rs lines 125-147): the summed
serialized sizes plus the fixed `CBOR_ARRAY_MAX_OVERHEAD`, or an error if any
entry fails to serialize. -/
def calculate_batch_size (q : List BatchQueueEntry) : Option Nat :=
  match sumVDataSizes q with
  | some s => some (CBOR_ARRAY_MAX_OVERHEAD + s)
  | none => none

/-- `calculate_fee_per_proof` (batch_queue.rs lines 207-213):
`gas_per_proof = (constant_gas_cost + ADDITIONAL_SUBMISSION_GAS_COST_PER_PROOF
* batch_len) / batch_len` in `u128` (wrapping at `2^128`), then
`U256::from(gas_per_proof) * gas_price` in `U256` (wrapping at `2^256`). -/
def calculate_fee_per_proof (batch_len gas_price constant_gas_cost : Nat) : Nat :=
  let gas_per_proof :=
    ((constant_gas_cost + ADDITIONAL_SUBMISSION_GAS_COST_PER_PROOF * batch_len) % U128_MOD)
      / batch_len
  (gas_per_proof * gas_price) % U256_MOD

/-- `calculate_fee_per_proof` guarded by the Rust division-by-zero panic: the
`u128` division panics when `batch_len = 0`. -/
def feePerProofChecked (batch_len gas_price constant_gas_cost : Nat) : Option Nat :=
  if batch_len = 0 then none
  else some (calculate_fee_per_proof batch_len gas_price constant_gas_cost)

/-- The peel loop of `try_build_batch` (batch_queue.rs lines 168-196), on the
queue in pop order together with the running `batch_size`.  While the peeked
entry fails `batch_size ≤ max_batch_byte_size`, `fee_per_proof ≤ max_fee` and
`batch_len ≤ max_batch_proof_qty`, its serialized size is subtracted and it is
popped; the loop stops at the first passing peek.  An empty queue yields
`BatchCostTooHigh`; the panics are surfaced as `UnwrapFailure` / `DivByZero`. -/
def tryBuildBatchLoop (gas_price max_batch_byte_size max_batch_proof_qty constant_gas_cost : Nat) :
    List BatchQueueEntry → Nat → Except BatcherError (List BatchQueueEntry)
  | [], _ => Except.error BatcherError.BatchCostTooHigh
  | e :: rest, batch_size =>
    match feePerProofChecked (e :: rest).length gas_price constant_gas_cost with
    | none => Except.error BatcherError.DivByZero
    | some fee_per_proof =>
      if batch_size > max_batch_byte_size ∨ fee_per_proof > e.max_fee ∨
          (e :: rest).length > max_batch_proof_qty then
        match e.serializedVDataLen with
        | none => Except.error BatcherError.UnwrapFailure
        | some sz =>
          tryBuildBatchLoop gas_price max_batch_byte_size max_batch_proof_qty constant_gas_cost
            rest (batch_size - sz)
      else Except.ok (e :: rest)

/-- `try_build_batch` (batch_queue.rs lines 158-205): compute the batch size
(propagating serialization errors), peel from the lowest-priority end, and
return the surviving queue in pop order (the crate's `into_sorted_vec` returns
greatest priority first, which is exactly the pop order). -/
def try_build_batch (q : List BatchQueueEntry)
    (gas_price max_batch_byte_size max_batch_proof_qty constant_gas_cost : Nat) :
    Except BatcherError (List BatchQueueEntry) :=
  match calculate_batch_size q with
  | none => Except.error BatcherError.SerializationError
  | some s =>
    tryBuildBatchLoop gas_price max_batch_byte_size max_batch_proof_qty constant_gas_cost q s

/-- Serialized length of an entry with a default, used to state sizes of
suffixes once all entries are known to serialize. -/
def vdLen (e : BatchQueueEntry) : Nat := e.serializedVDataLen.getD 0

/-- The batch size `calculate_batch_size` assigns to a queue all of whose
entries serialize. -/
def specBatchSize (q : List BatchQueueEntry) : Nat :=
  CBOR_ARRAY_MAX_OVERHEAD + (q.map vdLen).sum

/-- A non-empty suffix of the pop order passes the three checks of the peel
loop: its batch size fits, the fee per proof computed for its length is at
most the peeked (head) entry's `max_fee`, and its length is within the proof
quantity bound. -/
def feasibleB (gas_price max_batch_byte_size max_batch_proof_qty constant_gas_cost : Nat) :
    List BatchQueueEntry → Bool
  | [] => false
  | e :: rest =>
    decide (specBatchSize (e :: rest) ≤ max_batch_byte_size) &&
    decide (calculate_fee_per_proof (e :: rest).length gas_price constant_gas_cost ≤ e.max_fee) &&
    decide ((e :: rest).length ≤ max_batch_proof_qty)

/-- Reference peel: scan the pop order from the full queue downward and return
the first (hence longest) suffix passing all three checks. -/
def specPeel (gas_price max_batch_byte_size max_batch_proof_qty constant_gas_cost : Nat) :
    List BatchQueueEntry → Option (List BatchQueueEntry)
  | [] => none
  | e :: rest =>
    if feasibleB gas_price max_batch_byte_size max_batch_proof_qty constant_gas_cost
        (e :: rest) then some (e :: rest)
    else specPeel gas_price max_batch_byte_size max_batch_proof_qty constant_gas_cost rest

lemma sumVDataSizes_of_all_some {q : List BatchQueueEntry}
    (hall : ∀ e ∈ q, e.serializedVDataLen.isSome) :
    sumVDataSizes q = some ((q.map vdLen).sum) := by
  induction q with
  | nil => rfl
  | cons e rest ih =>
    have he : e.serializedVDataLen.isSome := hall e (List.mem_cons_self e rest)
    obtain ⟨n, hn⟩ := Option.isSome_iff_exists.mp he
    have hrest := ih (fun x hx => hall x (List.mem_cons_of_mem e hx))
    simp [sumVDataSizes, hn, hrest, vdLen]

lemma calculate_batch_size_of_all_some {q : List BatchQueueEntry}
    (hall : ∀ e ∈ q, e.serializedVDataLen.isSome) :
    calculate_batch_size q = some (specBatchSize q) := by
  simp [calculate_batch_size, sumVDataSizes_of_all_some hall, specBatchSize]

lemma all_some_of_sumVDataSizes {q : List BatchQueueEntry} {s : Nat}
    (h : sumVDataSizes q = some s) : ∀ e ∈ q, e.serializedVDataLen.isSome := by
  induction q generalizing s with
  | nil => intro e he; cases he
  | cons e rest ih =>
    intro x hx
    unfold sumVDataSizes at h
    cases hser : e.serializedVDataLen with
    | none => rw [hser] at h; cases h
    | some n =>
      rw [hser] at h
      cases hsum : sumVDataSizes rest with
      | none => rw [hsum] at h; cases h
      | some m =>
        cases hx with
        | head => simp [hser]
        | tail _ hx => exact ih hsum x hx

lemma all_some_of_calculate_batch_size {q : List BatchQueueEntry} {s : Nat}
    (h : calculate_batch_size q = some s) : ∀ e ∈ q, e.serializedVDataLen.isSome := by
  unfold calculate_batch_size at h
  cases hsum : sumVDataSizes q with
  | none => rw [hsum] at h; cases h
  | some m => exact all_some_of_sumVDataSizes hsum

/-- Running the loop on a queue whose entries all serialize, starting from
that queue's batch size, is the reference peel. -/
lemma tryBuildBatchLoop_eq_specPeel
    (g mb mq c : Nat) (q : List BatchQueueEntry)
    (hall : ∀ e ∈ q, e.serializedVDataLen.isSome) :
    tryBuildBatchLoop g mb mq c q (specBatchSize q) =
      match specPeel g mb mq c q with
      | none => Except.error BatcherError.BatchCostTooHigh
      | some t => Except.ok t := by
  induction q with
  | nil => rfl
  | cons e rest ih =>
    have he : e.serializedVDataLen.isSome := hall e (List.mem_cons_self e rest)
    obtain ⟨sz, hsz⟩ := Option.isSome_iff_exists.mp he
    have hrest : ∀ x ∈ rest, x.serializedVDataLen.isSome :=
      fun x hx => hall x (List.mem_cons_of_mem e hx)
    have hfee : feePerProofChecked (e :: rest).length g c =
        some (calculate_fee_per_proof (e :: rest).length g c) := by
      simp [feePerProofChecked]
    by_cases hcond : specBatchSize (e :: rest) > mb ∨
        calculate_fee_per_proof (e :: rest).length g c > e.max_fee ∨
        (e :: rest).length > mq
    · have hnotfeas : feasibleB g mb mq c (e :: rest) = false := by
        simp only [feasibleB, Bool.and_eq_false_iff, decide_eq_false_iff_not, not_le]
        rcases hcond with h1 | h2 | h3
        · exact Or.inl (Or.inl h1)
        · exact Or.inl (Or.inr h2)
        · exact Or.inr h3
      have hsize : specBatchSize (e :: rest) - sz = specBatchSize rest := by
        simp only [specBatchSize, List.map_cons, List.sum_cons, vdLen, hsz, Option.getD_some]
        omega
      have hpeel : specPeel g mb mq c (e :: rest) = specPeel g mb mq c rest := by
        rw [specPeel, hnotfeas]
        simp
      rw [tryBuildBatchLoop, hfee]
      simp only [if_pos hcond, hsz]
      rw [hsize, ih hrest, hpeel]
    · have hfeas : feasibleB g mb mq c (e :: rest) = true := by
        push_neg at hcond
        simp only [feasibleB, Bool.and_eq_true, decide_eq_true_eq]
        exact ⟨⟨hcond.1, hcond.2.1⟩, hcond.2.2⟩
      have hpeel : specPeel g mb mq c (e :: rest) = some (e :: rest) := by
        rw [specPeel, hfeas]
        simp
      rw [tryBuildBatchLoop, hfee]
      simp only [if_neg hcond]
      rw [hpeel]

lemma specPeel_eq_none_iff (g mb mq c : Nat) (q : List BatchQueueEntry) :
    specPeel g mb mq c q = none ↔ ∀ t ∈ q.tails, feasibleB g mb mq c t = false := by
  induction q with
  | nil =>
    simp [specPeel, feasibleB]
  | cons e rest ih =>
    unfold specPeel
    by_cases hfeas : feasibleB g mb mq c (e :: rest) = true
    · simp only [hfeas, if_pos rfl]
      constructor
      · intro h; cases h
      · intro h
        have := h (e :: rest) (by simp)
        rw [hfeas] at this; cases this
    · have hfeas' : feasibleB g mb mq c (e :: rest) = false := by
        simpa using hfeas
      simp only [hfeas', Bool.false_eq_true, if_false, ih]
      constructor
      · intro h t ht
        rw [List.tails_cons] at ht
        rcases List.mem_cons.mp ht with rfl | ht
        · exact hfeas'
        · exact h t ht
      · intro h t ht
        exact h t (by rw [List.tails_cons]; exact List.mem_cons_of_mem _ ht)

lemma length_le_of_mem_tails {t q : List BatchQueueEntry} (h : t ∈ q.tails) :
    t.length ≤ q.length :=
  ((List.mem_tails _ _).mp h).length_le

lemma specPeel_eq_some (g mb mq c : Nat) (q t : List BatchQueueEntry)
    (h : specPeel g mb mq c q = some t) :
    t ∈ q.tails ∧ feasibleB g mb mq c t = true ∧
      ∀ u ∈ q.tails, feasibleB g mb mq c u = true → u.length ≤ t.length := by
  induction q with
  | nil => cases h
  | cons e rest ih =>
    unfold specPeel at h
    by_cases hfeas : feasibleB g mb mq c (e :: rest) = true
    · rw [if_pos hfeas] at h
      obtain rfl : e :: rest = t := by injection h
      refine ⟨by simp, hfeas, ?_⟩
      intro u hu _
      exact length_le_of_mem_tails hu
    · rw [if_neg hfeas] at h
      obtain ⟨ht, hft, hmax⟩ := ih h
      refine ⟨?_, hft, ?_⟩
      · rw [List.tails_cons]; exact List.mem_cons_of_mem _ ht
      · intro u hu hfu
        rw [List.tails_cons] at hu
        rcases List.mem_cons.mp hu with rfl | hu
        · exact absurd hfu hfeas
        · exact hmax u hu hfu

/-- Unfolding equation for the peel loop on a non-empty queue: the division
guard always passes because the length is positive. -/
lemma tryBuildBatchLoop_cons (g mb mq c : Nat) (e : BatchQueueEntry)
    (rest : List BatchQueueEntry) (s : Nat) :
    tryBuildBatchLoop g mb mq c (e :: rest) s =
      if s > mb ∨ calculate_fee_per_proof (e :: rest).length g c > e.max_fee ∨
          (e :: rest).length > mq then
        match e.serializedVDataLen with
        | none => Except.error BatcherError.UnwrapFailure
        | some sz => tryBuildBatchLoop g mb mq c rest (s - sz)
      else Except.ok (e :: rest) := by
  have hfee : feePerProofChecked (e :: rest).length g c =
      some (calculate_fee_per_proof (e :: rest).length g c) := by
    simp [feePerProofChecked]
  rw [tryBuildBatchLoop, hfee]

lemma tryBuildBatchLoop_ok_isSuffix {g mb mq c : Nat} :
    ∀ (q : List BatchQueueEntry) (s : Nat) (out : List BatchQueueEntry),
      tryBuildBatchLoop g mb mq c q s = Except.ok out → out <:+ q := by
  intro q
  induction q with
  | nil => intro s out h; cases h
  | cons e rest ih =>
    intro s out h
    rw [tryBuildBatchLoop_cons] at h
    by_cases hcond : s > mb ∨ calculate_fee_per_proof (e :: rest).length g c > e.max_fee ∨
        (e :: rest).length > mq
    · rw [if_pos hcond] at h
      cases hser : e.serializedVDataLen with
      | none =>
        rw [hser] at h
        exact Except.noConfusion h
      | some sz =>
        rw [hser] at h
        exact (ih (s - sz) out h).trans (List.suffix_cons e rest)
    · rw [if_neg hcond] at h
      obtain rfl : e :: rest = out := by injection h
      exact List.suffix_refl _

lemma priorityCmp_ne_lt_iff (p r : BatchQueueEntryPriority) :
    priorityCmp p r ≠ Ordering.lt ↔
      p.max_fee < r.max_fee ∨ (p.max_fee = r.max_fee ∧ r.nonce ≤ p.nonce) := by
  rcases Nat.lt_trichotomy p.max_fee r.max_fee with h | h | h
  · have hcmp : compare r.max_fee p.max_fee = Ordering.gt := Nat.compare_eq_gt.mpr h
    simp [priorityCmp, hcmp, h]
  · have hcmp : compare r.max_fee p.max_fee = Ordering.eq := Nat.compare_eq_eq.mpr h.symm
    simp only [priorityCmp, hcmp, if_pos rfl]
    constructor
    · intro hne
      refine Or.inr ⟨h, ?_⟩
      by_contra hlt
      exact hne (Nat.compare_eq_lt.mpr (by omega))
    · rintro (hlt | ⟨_, hle⟩)
      · omega
      · intro hc
        have := Nat.compare_eq_lt.mp hc
        omega
  · have hcmp : compare r.max_fee p.max_fee = Ordering.lt := Nat.compare_eq_lt.mpr h
    have hres : priorityCmp p r = Ordering.lt := by
      simp [priorityCmp, hcmp]
    constructor
    · intro hne; exact absurd hres hne
    · rintro (hlt | ⟨heq, _⟩) <;> omega

/-- C1: for every batch queue (in pop order, all entries serializable), fee
inputs and limits, `try_build_batch` peels the lowest-priority peek while the
current size exceeds `max_batch_byte_size`, the fee per proof for the current
length exceeds the peek's `max_fee`, or the length exceeds
`max_batch_proof_qty`; it stops at the first peek passing all three checks —
the longest feasible suffix of the pop order — and it returns
`BatchCostTooHigh` exactly when peeling empties the queue, i.e. when no
non-empty suffix is feasible. -/
theorem try_build_batch_peels_until_feasible
    (q : List BatchQueueEntry) (g mb mq c : Nat)
    (hall : ∀ e ∈ q, e.serializedVDataLen.isSome) :
    (try_build_batch q g mb mq c = Except.error BatcherError.BatchCostTooHigh ↔
      ∀ t ∈ q.tails, feasibleB g mb mq c t = false) ∧
    ∀ out, try_build_batch q g mb mq c = Except.ok out →
      out ∈ q.tails ∧ feasibleB g mb mq c out = true ∧
        ∀ u ∈ q.tails, feasibleB g mb mq c u = true → u.length ≤ out.length := by
  have hcs := calculate_batch_size_of_all_some hall
  have hmain : try_build_batch q g mb mq c =
      match specPeel g mb mq c q with
      | none => Except.error BatcherError.BatchCostTooHigh
      | some t => Except.ok t := by
    unfold try_build_batch
    rw [hcs]
    exact tryBuildBatchLoop_eq_specPeel g mb mq c q hall
  constructor
  · rw [hmain, ← specPeel_eq_none_iff g mb mq c q]
    cases hp : specPeel g mb mq c q with
    | none => simp
    | some t => simp
  · intro out hout
    rw [hmain] at hout
    cases hp : specPeel g mb mq c q with
    | none => rw [hp] at hout; cases hout
    | some t =>
      rw [hp] at hout
      obtain rfl : t = out := by injection hout
      exact specPeel_eq_some g mb mq c q t hp

/-- A one-element queue used to instantiate the peel characterisation. -/
def qPeelW : List BatchQueueEntry := [⟨1, 0, 1000000, some 10⟩]

/-- Witness for C1: the peel characterisation applied to a concrete
one-entry queue. -/
theorem try_build_batch_peels_until_feasible_witness :
    (try_build_batch qPeelW 1 5000000 50 2000 = Except.error BatcherError.BatchCostTooHigh ↔
      ∀ t ∈ qPeelW.tails, feasibleB 1 5000000 50 2000 t = false) ∧
    ∀ out, try_build_batch qPeelW 1 5000000 50 2000 = Except.ok out →
      out ∈ qPeelW.tails ∧ feasibleB 1 5000000 50 2000 out = true ∧
        ∀ u ∈ qPeelW.tails, feasibleB 1 5000000 50 2000 u = true → u.length ≤ out.length :=
  try_build_batch_peels_until_feasible qPeelW 1 5000000 50 2000 (by decide)

/-- Entry with the higher nonce of an equal-fee pair. -/
def entryHighNonce : BatchQueueEntry := ⟨1, 2, 1000000, some 10⟩

/-- Entry with the lower nonce of an equal-fee pair. -/
def entryLowNonce : BatchQueueEntry := ⟨1, 1, 1000000, some 10⟩

/-- An equal-fee two-entry queue in pop order: the higher nonce has the
greater priority, so it is popped (and listed) first. -/
def qEqualFee : List BatchQueueEntry := [entryHighNonce, entryLowNonce]

/-- C2 counterexample: on a feasible queue of two entries with equal
`max_fee` and nonces 2 and 1, `try_build_batch` returns the higher nonce
first — the claim's "lowest nonce first within the same fee" is false; the
repository's own test `batch_finalization_algorithm_works_from_same_sender_same_fee`
asserts this order. -/
theorem try_build_batch_equal_fee_higher_nonce_first :
    popOrdered qEqualFee ∧
    try_build_batch qEqualFee 1 5000000 50 2000 =
      Except.ok [entryHighNonce, entryLowNonce] ∧
    entryHighNonce.max_fee = entryLowNonce.max_fee ∧
    entryLowNonce.nonce < entryHighNonce.nonce := by
  refine ⟨by decide, ?_, rfl, by decide⟩
  rfl

/-- C2 (amended): for every pop-ordered queue, a successful
`try_build_batch` lists the surviving entries lowest `max_fee` first and,
among entries with equal `max_fee`, HIGHEST nonce first; this vector order is
the Merkle-leaf order used by `finalize_batch`. -/
theorem try_build_batch_output_sorted
    (q out : List BatchQueueEntry) (g mb mq c : Nat)
    (hsort : popOrdered q)
    (hok : try_build_batch q g mb mq c = Except.ok out) :
    out.Pairwise fun a b =>
      a.max_fee < b.max_fee ∨ (a.max_fee = b.max_fee ∧ b.nonce ≤ a.nonce) := by
  unfold try_build_batch at hok
  cases hcs : calculate_batch_size q with
  | none => rw [hcs] at hok; cases hok
  | some s =>
    rw [hcs] at hok
    have hsuf : out <:+ q := tryBuildBatchLoop_ok_isSuffix q s out hok
    have hp : out.Pairwise
        (fun a b => priorityCmp (entryPriority a) (entryPriority b) ≠ Ordering.lt) :=
      hsort.sublist hsuf.sublist
    exact hp.imp fun h => (priorityCmp_ne_lt_iff _ _).mp h

/-- Witness for the amended C2 theorem at a concrete queue. -/
theorem try_build_batch_output_sorted_witness :
    List.Pairwise
      (fun a b : BatchQueueEntry =>
        a.max_fee < b.max_fee ∨ (a.max_fee = b.max_fee ∧ b.nonce ≤ a.nonce))
      [entryHighNonce, entryLowNonce] :=
  try_build_batch_output_sorted qEqualFee [entryHighNonce, entryLowNonce]
    1 5000000 50 2000 (by decide) (by rfl)

/-- C3 counterexample: with constant gas cost 2000 and gas price 1, the fee
per proof at batch length 1 is 4000 while at length 2 it is 3000: the fee per
proof at the smaller length is NOT less than or equal to the one at the larger
length — reducing the cardinality increases, not reduces, `fee_per_proof`. -/
theorem calculate_fee_per_proof_not_monotone :
    (1 : Nat) < 2 ∧
    ¬ calculate_fee_per_proof 1 1 2000 ≤ calculate_fee_per_proof 2 1 2000 := by
  constructor
  · decide
  · decide

/-- C3 (amended): for positive lengths `L1 < L2` whose gas computation does
not overflow, `fee_per_proof` at the LARGER length is less than or equal to
the one at the smaller length: growing the batch weakly reduces the fee per
proof, and popping (reducing `L`) weakly increases it.  The peel loop still
terminates — the queue strictly shrinks — and stops at the longest feasible
suffix (see the C1 theorem). -/
theorem calculate_fee_per_proof_antitone
    (L1 L2 g c : Nat) (h1 : 0 < L1) (h12 : L1 < L2)
    (hc : c + ADDITIONAL_SUBMISSION_GAS_COST_PER_PROOF * L2 < U128_MOD)
    (hg : (c + ADDITIONAL_SUBMISSION_GAS_COST_PER_PROOF * L1) / L1 * g < U256_MOD) :
    calculate_fee_per_proof L2 g c ≤ calculate_fee_per_proof L1 g c := by
  have h2 : 0 < L2 := lt_trans h1 h12
  have hc1 : c + ADDITIONAL_SUBMISSION_GAS_COST_PER_PROOF * L1 < U128_MOD := by
    have hmul : ADDITIONAL_SUBMISSION_GAS_COST_PER_PROOF * L1 ≤
        ADDITIONAL_SUBMISSION_GAS_COST_PER_PROOF * L2 :=
      Nat.mul_le_mul_left _ h12.le
    omega
  have hdiv : (c + ADDITIONAL_SUBMISSION_GAS_COST_PER_PROOF * L2) / L2 ≤
      (c + ADDITIONAL_SUBMISSION_GAS_COST_PER_PROOF * L1) / L1 := by
    rw [Nat.add_mul_div_right _ _ h2, Nat.add_mul_div_right _ _ h1]
    exact Nat.add_le_add_right (Nat.div_le_div_left h12.le h1) _
  show ((c + ADDITIONAL_SUBMISSION_GAS_COST_PER_PROOF * L2) % U128_MOD / L2 * g) % U256_MOD ≤
    ((c + ADDITIONAL_SUBMISSION_GAS_COST_PER_PROOF * L1) % U128_MOD / L1 * g) % U256_MOD
  rw [Nat.mod_eq_of_lt hc, Nat.mod_eq_of_lt hc1]
  have hmul : (c + ADDITIONAL_SUBMISSION_GAS_COST_PER_PROOF * L2) / L2 * g ≤
      (c + ADDITIONAL_SUBMISSION_GAS_COST_PER_PROOF * L1) / L1 * g :=
    mul_le_mul_right' hdiv g
  rw [Nat.mod_eq_of_lt hg, Nat.mod_eq_of_lt (lt_of_le_of_lt hmul hg)]
  exact hmul

/-- Witness for the amended C3 theorem at lengths 1 and 2. -/
theorem calculate_fee_per_proof_antitone_witness :
    calculate_fee_per_proof 2 1 2000 ≤ calculate_fee_per_proof 1 1 2000 :=
  calculate_fee_per_proof_antitone 1 2 1 2000 (by decide) (by decide)
    (by decide) (by decide)

/-- C4: under the `Ord` implementation for `BatchQueueEntryPriority` (pop
returns the greatest element first), an entry whose `max_fee` equals another's
but whose nonce is higher compares greater — it is popped first — and an entry
with a lower `max_fee` compares greater than one with a higher `max_fee`, so
lower fees are popped before higher fees. -/
theorem priorityCmp_pop_order
    (p r : BatchQueueEntryPriority) :
    (p.max_fee = r.max_fee → r.nonce < p.nonce → priorityCmp p r = Ordering.gt) ∧
    (p.max_fee < r.max_fee → priorityCmp p r = Ordering.gt) := by
  constructor
  · intro hfee hnonce
    have hcmp : compare r.max_fee p.max_fee = Ordering.eq := Nat.compare_eq_eq.mpr hfee.symm
    have hn : compare p.nonce r.nonce = Ordering.gt := Nat.compare_eq_gt.mpr hnonce
    simp [priorityCmp, hcmp, hn]
  · intro h
    have hcmp : compare r.max_fee p.max_fee = Ordering.gt := Nat.compare_eq_gt.mpr h
    simp [priorityCmp, hcmp]

/-- Witness for C4: equal fee with higher nonce pops first, and a lower fee
pops before a higher fee, at concrete priorities. -/
theorem priorityCmp_pop_order_witness :
    priorityCmp ⟨5, 2⟩ ⟨5, 1⟩ = Ordering.gt ∧ priorityCmp ⟨3, 7⟩ ⟨5, 0⟩ = Ordering.gt :=
  ⟨(priorityCmp_pop_order ⟨5, 2⟩ ⟨5, 1⟩).1 rfl (by decide),
   (priorityCmp_pop_order ⟨3, 7⟩ ⟨5, 0⟩).2 (by decide)⟩

/-- C9: whenever `calculate_batch_size` succeeds on the queue,
`try_build_batch` cannot panic: the `u128` division of
`calculate_fee_per_proof` is only reached with a non-empty queue (never a
division by zero), and the `.unwrap()` of `cbor_serialize` inside the peel
loop never fails because every entry already serialized successfully inside
`calculate_batch_size`. -/
theorem try_build_batch_no_panic
    (q : List BatchQueueEntry) (g mb mq c s : Nat)
    (h : calculate_batch_size q = some s) :
    try_build_batch q g mb mq c ≠ Except.error BatcherError.UnwrapFailure ∧
    try_build_batch q g mb mq c ≠ Except.error BatcherError.DivByZero := by
  have hall := all_some_of_calculate_batch_size h
  have hcs := calculate_batch_size_of_all_some hall
  have hmain : try_build_batch q g mb mq c =
      match specPeel g mb mq c q with
      | none => Except.error BatcherError.BatchCostTooHigh
      | some t => Except.ok t := by
    unfold try_build_batch
    rw [hcs]
    exact tryBuildBatchLoop_eq_specPeel g mb mq c q hall
  rw [hmain]
  cases specPeel g mb mq c q with
  | none => exact ⟨by simp, by simp⟩
  | some t => exact ⟨by simp, by simp⟩

/-- Witness for C9: a concrete queue whose batch size computes to 19. -/
theorem try_build_batch_no_panic_witness :
    try_build_batch qPeelW 1 5000000 50 2000 ≠ Except.error BatcherError.UnwrapFailure ∧
    try_build_batch qPeelW 1 5000000 50 2000 ≠ Except.error BatcherError.DivByZero :=
  try_build_batch_no_panic qPeelW 1 5000000 50 2000 19 (by rfl)

/-- Per-address `UserState`.  The file `types/user_state.rs` is not under
src/; fields as the spec describes them (§3): cached next-expected nonce,
minimum `max_fee` among in-queue entries, number of in-queue entries, and sum
of their `max_fee`s. -/
structure UserState where
  nonce : Nat
  last_max_fee_limit : Nat
  proof_count : Nat
  total_fees_in_queue : Nat
  deriving Repr, DecidableEq

/-- `BatchState` (the file `types/batch_state.rs` is not under src/): the
batch queue plus the per-address user states.  The claims about the admission,
replacement and removal paths concern the queue's contents, not its heap
order, so `PriorityQueue::push` is modelled as `cons`; user states are an
association list keyed by address. -/
structure BatchState where
  batch_queue : List BatchQueueEntry
  user_states : List (Nat × UserState)
  deriving Repr, DecidableEq

/-- Projection of an incoming `SubmitProofMessage` to the fields the admission
pipeline reads: the message nonce, the `max_fee` bid and the serialized length
of its verification data. -/
structure SubmitMsg where
  nonce : Nat
  max_fee : Nat
  serializedVDataLen : Option Nat
  deriving Repr, DecidableEq

/-- Outcome of handling a submission: the typed rejection responses of
lib.rs, plus `enqueued` / `replaced` for the silent success paths (inclusion
responses are sent later by the finalizer). -/
inductive SubmitOutcome where
  | invalidNonce
  | invalidMaxFee
  | invalidReplacement
  | insufficientBalance
  | addToBatchError
  | enqueued
  | replaced
  deriving Repr, DecidableEq

/-- Modelled from the spec: `get_entry(a, nonce)` of `BatchState`
(types/batch_state.rs, not under src/) — the queue entry with the given
sender and nonce (spec §4.2). -/
def get_entry (queue : List BatchQueueEntry) (addr nonce : Nat) : Option BatchQueueEntry :=
  queue.find? fun e => e.sender == addr && e.nonce == nonce

/-- Modelled from the spec: the user-state read accessors of `BatchState`
(`get_user_nonce`, `get_user_last_max_fee_limit`, `get_user_proof_count`,
`get_user_total_fees_in_queue`; types/batch_state.rs, not under src/) all
look the address up and return a miss when it is absent (spec §4.2). -/
def lookupUser (st : BatchState) (addr : Nat) : Option UserState :=
  st.user_states.lookup addr

/-- Modelled from the spec: the user-state mutators of `BatchState` return a
miss indicator when the address is absent and never auto-create (spec §4.2). -/
def updateUser (st : BatchState) (addr : Nat) (f : UserState → UserState) :
    Option BatchState :=
  match st.user_states.lookup addr with
  | none => none
  | some _ =>
    some ⟨st.batch_queue, st.user_states.map (fun p => if p.1 == addr then (p.1, f p.2) else p)⟩

/-- Modelled from the spec: `min_fee_in_batch(a)` — the minimum `max_fee`
among `a`'s in-queue entries (spec §4.2); `U256::MAX` when `a` owns none. -/
def min_fee_in_batch (queue : List BatchQueueEntry) (addr : Nat) : Nat :=
  ((queue.filter fun e => e.sender == addr).map fun e => e.max_fee).foldr min U256_MAX

/-- Removal by `(sender, nonce)` equality — `PriorityQueue::remove` under the
`PartialEq`/`Hash` impls of `BatchQueueEntry` (batch_queue.rs lines 73-88). -/
def removeEntry (queue : List BatchQueueEntry) (e : BatchQueueEntry) :
    List BatchQueueEntry :=
  queue.filter fun x => !(x.sender == e.sender && x.nonce == e.nonce)

/-- `verify_user_has_enough_balance` (lib.rs lines 826-835): the on-chain
balance must cover the fees already accumulated in the queue plus the new
bid. -/
def verify_user_has_enough_balance
    (user_balance user_accumulated_fee new_msg_max_fee : Nat) : Bool :=
  decide (user_accumulated_fee + new_msg_max_fee ≤ user_balance)

/-- Modelled from the spec: `replacement_entry_is_valid`
(types/batch_state.rs, not under src/).  Spec §4.8 rejects a replacement
whenever `msg.max_fee ≤ old.max_fee`; the strict part `old.max_fee >
msg.max_fee` is already rejected inside `handle_replacement_message` itself
(lib.rs lines 866-878), so the residual validity check accepts exactly when
the new fee strictly exceeds the fee of the queued entry with the same
`(sender, nonce)`. -/
def replacement_entry_is_valid (st : BatchState) (replacement : BatchQueueEntry) : Bool :=
  match get_entry st.batch_queue replacement.sender replacement.nonce with
  | some old => decide (old.max_fee < replacement.max_fee)
  | none => false

/-- The replacement entry built from the old entry: the old `(sender, nonce)`
key is kept, the nonced verification data (here its `max_fee` and serialized
length) and signature come from the new message (lib.rs lines 883-906). -/
def replacementOf (old : BatchQueueEntry) (msg : SubmitMsg) : BatchQueueEntry :=
  { old with max_fee := msg.max_fee, serializedVDataLen := msg.serializedVDataLen }

/-- The commit phase of `handle_replacement_message` (lib.rs lines 880-968),
entered once the replacement is validated: remove the old entry (equal by
`(sender, nonce)`), push the replacement with priority `(max_fee, nonce)`,
refresh `last_max_fee_limit` from `min_fee_in_batch` and adjust the
accumulated fees by the fee difference; each user-state update reports
`AddToBatchError` on a missing user state. -/
def commit_replacement (st : BatchState) (addr : Nat) (msg : SubmitMsg)
    (entry : BatchQueueEntry) : SubmitOutcome × BatchState :=
  let replacement_entry : BatchQueueEntry := replacementOf entry msg
  let st1 : BatchState :=
    ⟨replacement_entry :: removeEntry st.batch_queue replacement_entry, st.user_states⟩
  match updateUser st1 addr
      (fun u => { u with last_max_fee_limit := min_fee_in_batch st1.batch_queue addr }) with
  | none => (SubmitOutcome.addToBatchError, st1)
  | some st2 =>
    match updateUser st2 addr
        (fun u => { u with total_fees_in_queue :=
            u.total_fees_in_queue + (msg.max_fee - entry.max_fee) }) with
    | none => (SubmitOutcome.addToBatchError, st2)
    | some st3 => (SubmitOutcome.replaced, st3)

/-- `handle_replacement_message` (lib.rs lines 844-968): look the existing
entry up by `(sender, msg.nonce)` (absent → `InvalidNonce`); reject when the
original fee exceeds the replacement fee, or when the residual validity check
fails (both → `InvalidReplacementMessage`); otherwise commit the
replacement. -/
def handle_replacement_message (st : BatchState) (addr : Nat) (msg : SubmitMsg) :
    SubmitOutcome × BatchState :=
  match get_entry st.batch_queue addr msg.nonce with
  | none => (SubmitOutcome.invalidNonce, st)
  | some entry =>
    if entry.max_fee > msg.max_fee then (SubmitOutcome.invalidReplacement, st)
    else if replacement_entry_is_valid st (replacementOf entry msg) = false then
      (SubmitOutcome.invalidReplacement, st)
    else commit_replacement st addr msg entry

/-- `add_to_batch` (lib.rs lines 1006-1091): push the entry with priority
`(max_fee, nonce)`, then update the user state to `(msg.nonce + 1,
msg.max_fee, proof_count + 1, total_fees + msg.max_fee)`; a missing user
state yields `AddressNotFoundInUserStates`, reported to the client as
`AddToBatchError`. -/
def add_to_batch (st : BatchState) (addr : Nat) (msg : SubmitMsg) :
    SubmitOutcome × BatchState :=
  let entry : BatchQueueEntry := ⟨addr, msg.nonce, msg.max_fee, msg.serializedVDataLen⟩
  let pushed : BatchState := { st with batch_queue := entry :: st.batch_queue }
  match lookupUser pushed addr with
  | none => (SubmitOutcome.addToBatchError, pushed)
  | some us =>
    match updateUser pushed addr (fun u => { u with
        nonce := msg.nonce + 1,
        last_max_fee_limit := msg.max_fee,
        proof_count := us.proof_count + 1,
        total_fees_in_queue := us.total_fees_in_queue + msg.max_fee }) with
    | none => (SubmitOutcome.addToBatchError, pushed)
    | some st2 => (SubmitOutcome.enqueued, st2)

/-- The user-state validation segment of `handle_submit_proof_msg`
(lib.rs lines 705-815), entered for a paying user under the batch-state lock
with the on-chain balance already fetched: a missing user state yields
`AddToBatchError`; then `verify_user_has_enough_balance` (else
`InsufficientBalance`); then `expected_nonce < msg_nonce` →
`InvalidNonce`, `expected_nonce > msg_nonce` → the replacement path,
`msg_max_fee > user_last_max_fee_limit` → `InvalidMaxFee`; otherwise
`add_to_batch`. -/
def handle_submit_proof_msg (st : BatchState) (addr balance : Nat) (msg : SubmitMsg) :
    SubmitOutcome × BatchState :=
  match lookupUser st addr with
  | none => (SubmitOutcome.addToBatchError, st)
  | some us =>
    if verify_user_has_enough_balance balance us.total_fees_in_queue msg.max_fee = false then
      (SubmitOutcome.insufficientBalance, st)
    else if us.nonce < msg.nonce then (SubmitOutcome.invalidNonce, st)
    else if msg.nonce < us.nonce then handle_replacement_message st addr msg
    else if us.last_max_fee_limit < msg.max_fee then (SubmitOutcome.invalidMaxFee, st)
    else add_to_batch st addr msg

/-- `handle_nonpaying_msg` (lib.rs lines 1695-1762), with the non-paying
configuration present: fetch the replacement address's balance (a fetch
failure or a zero balance yields `InsufficientBalance`), then rebuild the
message with the fixed `DEFAULT_MAX_FEE_PER_PROOF` bid and `add_to_batch` it
under the replacement address — no accumulated-fee comparison is made. -/
def handle_nonpaying_msg (st : BatchState) (replacement_addr : Nat)
    (replacement_user_balance : Option Nat) (msg : SubmitMsg) :
    SubmitOutcome × BatchState :=
  match replacement_user_balance with
  | none => (SubmitOutcome.insufficientBalance, st)
  | some balance =>
    if balance = 0 then (SubmitOutcome.insufficientBalance, st)
    else add_to_batch st replacement_addr { msg with max_fee := DEFAULT_MAX_FEE_PER_PROOF }

/-- Modelled from the spec: `calculate_new_user_states_data`
(types/batch_state.rs, not under src/) — recompute `(proof_count, min_fee,
total_fee)` over the current queue (spec §4.2); defined exactly for the
addresses owning at least one queue entry. -/
def calculate_new_user_states_data (queue : List BatchQueueEntry) (addr : Nat) :
    Option (Nat × Nat × Nat) :=
  if queue.any fun e => e.sender == addr then
    some ((queue.filter fun e => e.sender == addr).length,
          min_fee_in_batch queue addr,
          ((queue.filter fun e => e.sender == addr).map fun e => e.max_fee).sum)
  else none

/-- `remove_proofs_from_queue` (lib.rs lines 1171-1226): remove every entry
of the finalized batch from the queue (by `(sender, nonce)` equality), then
for every address in `user_states` set `(proof_count, last_max_fee_limit,
total_fees_in_queue)` to the recomputed data, defaulting to
`(0, U256::MAX, 0)` for an address owning no remaining entry; the cached
nonce is left untouched. -/
def remove_proofs_from_queue (st : BatchState) (finalized_batch : List BatchQueueEntry) :
    BatchState :=
  let queue1 := finalized_batch.foldl (fun q e => removeEntry q e) st.batch_queue
  let newUser : Nat → UserState → UserState := fun addr u =>
    let d := (calculate_new_user_states_data queue1 addr).getD (0, U256_MAX, 0)
    { u with proof_count := d.1, last_max_fee_limit := d.2.1, total_fees_in_queue := d.2.2 }
  ⟨queue1, st.user_states.map (fun p => (p.1, newUser p.1 p.2))⟩

/-- The block-dedup loop of `listen_new_blocks_retryable` (lib.rs lines
351-375): fold over the merged stream of block numbers from the primary and
fallback subscriptions; a number not greater than `last_seen_block` is
skipped, any other is processed (`handle_new_block` is spawned) and becomes
the new `last_seen_block`.  The returned list is the sequence of processed
block numbers. -/
def blockLoop : List Nat → Nat → List Nat
  | [], _ => []
  | b :: rest, last_seen =>
    if b ≤ last_seen then blockLoop rest last_seen else b :: blockLoop rest b

/-- The processed blocks of a run of the listening loop, which initializes
`last_seen_block` to 0. -/
def listen_new_blocks (notifs : List Nat) : List Nat := blockLoop notifs 0

lemma updateUser_batch_queue {st st2 : BatchState} {addr : Nat} {f : UserState → UserState}
    (h : updateUser st addr f = some st2) : st2.batch_queue = st.batch_queue := by
  unfold updateUser at h
  cases hl : st.user_states.lookup addr with
  | none => rw [hl] at h; cases h
  | some u =>
    rw [hl] at h
    injection h with h2
    rw [← h2]

lemma updateUser_of_lookup {st : BatchState} {addr : Nat} {us : UserState}
    (f : UserState → UserState) (hus : lookupUser st addr = some us) :
    updateUser st addr f =
      some ⟨st.batch_queue,
        st.user_states.map (fun p => if p.1 == addr then (p.1, f p.2) else p)⟩ := by
  unfold lookupUser at hus
  unfold updateUser
  rw [hus]

lemma add_to_batch_of_user_present (st : BatchState) (addr : Nat) (msg : SubmitMsg)
    (us : UserState) (hus : lookupUser st addr = some us) :
    (add_to_batch st addr msg).1 = SubmitOutcome.enqueued ∧
    (add_to_batch st addr msg).2.batch_queue =
      (⟨addr, msg.nonce, msg.max_fee, msg.serializedVDataLen⟩ : BatchQueueEntry) ::
        st.batch_queue := by
  unfold lookupUser at hus
  constructor
  · simp only [add_to_batch, updateUser, lookupUser, hus]
  · simp only [add_to_batch, updateUser, lookupUser, hus]

/-- C5: for an admitted paying submission whose user state is present and
whose balance check passes, with `expected = user_state.nonce`: a message
nonce above `expected` is answered `InvalidNonce` with the state unchanged; a
nonce below `expected` enters the replacement path; at `expected`, a
`max_fee` above `last_max_fee_limit` is answered `InvalidMaxFee` with the
state unchanged, and otherwise the entry is enqueued (pushed onto the
queue). -/
theorem handle_submit_nonce_and_fee_checks
    (st : BatchState) (addr balance : Nat) (msg : SubmitMsg) (us : UserState)
    (hus : lookupUser st addr = some us)
    (hbal : us.total_fees_in_queue + msg.max_fee ≤ balance) :
    (us.nonce < msg.nonce →
      handle_submit_proof_msg st addr balance msg = (SubmitOutcome.invalidNonce, st)) ∧
    (msg.nonce < us.nonce →
      handle_submit_proof_msg st addr balance msg = handle_replacement_message st addr msg) ∧
    (msg.nonce = us.nonce → us.last_max_fee_limit < msg.max_fee →
      handle_submit_proof_msg st addr balance msg = (SubmitOutcome.invalidMaxFee, st)) ∧
    (msg.nonce = us.nonce → msg.max_fee ≤ us.last_max_fee_limit →
      (handle_submit_proof_msg st addr balance msg).1 = SubmitOutcome.enqueued ∧
      (handle_submit_proof_msg st addr balance msg).2.batch_queue =
        (⟨addr, msg.nonce, msg.max_fee, msg.serializedVDataLen⟩ : BatchQueueEntry) ::
          st.batch_queue) := by
  have hv : verify_user_has_enough_balance balance us.total_fees_in_queue msg.max_fee = true := by
    unfold verify_user_has_enough_balance
    exact decide_eq_true hbal
  have hform : handle_submit_proof_msg st addr balance msg =
      (if us.nonce < msg.nonce then (SubmitOutcome.invalidNonce, st)
       else if msg.nonce < us.nonce then handle_replacement_message st addr msg
       else if us.last_max_fee_limit < msg.max_fee then (SubmitOutcome.invalidMaxFee, st)
       else add_to_batch st addr msg) := by
    unfold handle_submit_proof_msg
    rw [hus]
    simp [hv]
  refine ⟨?_, ?_, ?_, ?_⟩
  · intro h
    rw [hform, if_pos h]
  · intro h
    rw [hform, if_neg (by omega), if_pos h]
  · intro heq hfee
    rw [hform, if_neg (by omega), if_neg (by omega), if_pos hfee]
  · intro heq hfee
    rw [hform, if_neg (by omega), if_neg (by omega), if_neg (by omega)]
    exact add_to_batch_of_user_present st addr msg us hus

/-- A one-user state used to instantiate the admission checks. -/
def stSubmitW : BatchState := ⟨[], [(1, ⟨5, 1000, 0, 0⟩)]⟩

/-- A message with a skipped nonce for the admission-check witness. -/
def msgSubmitW : SubmitMsg := ⟨6, 10, some 10⟩

/-- Witness for C5 at a concrete state: nonce 6 against expected nonce 5 is
rejected with `InvalidNonce`. -/
theorem handle_submit_nonce_and_fee_checks_witness :
    handle_submit_proof_msg stSubmitW 1 100 msgSubmitW = (SubmitOutcome.invalidNonce, stSubmitW) :=
  (handle_submit_nonce_and_fee_checks stSubmitW 1 100 msgSubmitW ⟨5, 1000, 0, 0⟩
    (by rfl) (by decide)).1 (by decide)

lemma get_entry_some_key {q : List BatchQueueEntry} {addr n : Nat} {old : BatchQueueEntry}
    (h : get_entry q addr n = some old) : old.sender = addr ∧ old.nonce = n := by
  have hfind := List.find?_some h
  simp only [Bool.and_eq_true, beq_iff_eq] at hfind
  exact hfind

lemma handle_replacement_message_some (st : BatchState) (addr : Nat) (msg : SubmitMsg)
    (old : BatchQueueEntry) (hold : get_entry st.batch_queue addr msg.nonce = some old) :
    handle_replacement_message st addr msg =
      (if old.max_fee > msg.max_fee then (SubmitOutcome.invalidReplacement, st)
       else if replacement_entry_is_valid st (replacementOf old msg) = false then
         (SubmitOutcome.invalidReplacement, st)
       else commit_replacement st addr msg old) := by
  unfold handle_replacement_message
  rw [hold]

lemma replacement_commit_queue_aux (st1 : BatchState) (addr : Nat)
    (f1 f2 : UserState → UserState) :
    (match updateUser st1 addr f1 with
     | none => (SubmitOutcome.addToBatchError, st1)
     | some st2 =>
       match updateUser st2 addr f2 with
       | none => (SubmitOutcome.addToBatchError, st2)
       | some st3 => (SubmitOutcome.replaced, st3)).2.batch_queue = st1.batch_queue := by
  cases hu1 : updateUser st1 addr f1 with
  | none => rfl
  | some st2 =>
    have h1 := updateUser_batch_queue hu1
    show (match updateUser st2 addr f2 with
          | none => (SubmitOutcome.addToBatchError, st2)
          | some st3 => (SubmitOutcome.replaced, st3)).2.batch_queue = st1.batch_queue
    cases hu2 : updateUser st2 addr f2 with
    | none => exact h1
    | some st3 =>
      have h2 := updateUser_batch_queue hu2
      show st3.batch_queue = st1.batch_queue
      rw [h2, h1]

lemma commit_replacement_queue (st : BatchState) (addr : Nat) (msg : SubmitMsg)
    (entry : BatchQueueEntry) :
    (commit_replacement st addr msg entry).2.batch_queue =
      replacementOf entry msg :: removeEntry st.batch_queue (replacementOf entry msg) :=
  replacement_commit_queue_aux ⟨replacementOf entry msg :: removeEntry st.batch_queue (replacementOf entry msg), st.user_states⟩ addr (fun u => { u with last_max_fee_limit := min_fee_in_batch (replacementOf entry msg :: removeEntry st.batch_queue (replacementOf entry msg)) addr }) (fun u => { u with total_fees_in_queue := u.total_fees_in_queue + (msg.max_fee - entry.max_fee) })

/-- C6: on the replacement path, a missing queue entry for
`(sender, msg.nonce)` is answered `InvalidNonce` and a replacement whose
`max_fee` does not strictly exceed the existing entry's is answered
`InvalidReplacementMessage`, both leaving the state (and so the queue)
unchanged; when the new fee strictly exceeds the old one the old entry is
replaced in the queue by the new entry under the same `(sender, nonce)`. -/
theorem handle_replacement_checks (st : BatchState) (addr : Nat) (msg : SubmitMsg) :
    (get_entry st.batch_queue addr msg.nonce = none →
      handle_replacement_message st addr msg = (SubmitOutcome.invalidNonce, st)) ∧
    (∀ old, get_entry st.batch_queue addr msg.nonce = some old →
      msg.max_fee ≤ old.max_fee →
      handle_replacement_message st addr msg = (SubmitOutcome.invalidReplacement, st)) ∧
    (∀ old, get_entry st.batch_queue addr msg.nonce = some old →
      old.max_fee < msg.max_fee →
      (handle_replacement_message st addr msg).2.batch_queue =
        replacementOf old msg :: removeEntry st.batch_queue (replacementOf old msg)) := by
  refine ⟨?_, ?_, ?_⟩
  · intro h
    unfold handle_replacement_message
    rw [h]
  · intro old hold hle
    obtain ⟨hks, hkn⟩ := get_entry_some_key hold
    rw [handle_replacement_message_some st addr msg old hold]
    by_cases hlt : old.max_fee > msg.max_fee
    · rw [if_pos hlt]
    · rw [if_neg hlt]
      have heq : msg.max_fee = old.max_fee := by omega
      have hvalid : replacement_entry_is_valid st (replacementOf old msg) = false := by
        have h2 : get_entry st.batch_queue old.sender old.nonce = some old := by
          rw [hks, hkn]; exact hold
        unfold replacement_entry_is_valid replacementOf
        simp only [h2, heq]
        simp
      rw [hvalid, if_pos rfl]
  · intro old hold hlt
    obtain ⟨hks, hkn⟩ := get_entry_some_key hold
    have hvalid : replacement_entry_is_valid st (replacementOf old msg) = true := by
      have h2 : get_entry st.batch_queue old.sender old.nonce = some old := by
        rw [hks, hkn]; exact hold
      unfold replacement_entry_is_valid replacementOf
      simp only [h2]
      simp [hlt]
    rw [handle_replacement_message_some st addr msg old hold,
      if_neg (by omega), hvalid]
    simp only [Bool.true_eq_false, if_false]
    exact commit_replacement_queue st addr msg old

/-- Witness for C6 at a concrete state: with an empty queue, the replacement
path answers `InvalidNonce`. -/
theorem handle_replacement_checks_witness :
    handle_replacement_message ⟨[], []⟩ 1 ⟨0, 5, some 1⟩ =
      (SubmitOutcome.invalidNonce, ⟨[], []⟩) :=
  (handle_replacement_checks ⟨[], []⟩ 1 ⟨0, 5, some 1⟩).1 (by rfl)

/-- A state whose only user is the non-paying replacement address with no
queued entries and no accumulated fees. -/
def stNonpaying : BatchState := ⟨[], [(1, ⟨0, U256_MAX, 0, 0⟩)]⟩

/-- A non-paying submission with message nonce 0. -/
def msgNonpaying : SubmitMsg := ⟨0, 0, some 10⟩

/-- C7 counterexample: on the non-paying path, a replacement-address balance
of 1 wei passes the only balance check (`balance == 0`), and the proof is
enqueued with the fixed bid `DEFAULT_MAX_FEE_PER_PROOF = 2·10^14`, although
the balance is far below accumulated fees plus that bid — no
`InsufficientBalance` reply is produced. -/
theorem handle_nonpaying_enqueues_despite_insufficient_balance :
    (handle_nonpaying_msg stNonpaying 1 (some 1) msgNonpaying).1 = SubmitOutcome.enqueued ∧
    (1 : Nat) < 0 + DEFAULT_MAX_FEE_PER_PROOF ∧
    (handle_nonpaying_msg stNonpaying 1 (some 1) msgNonpaying).2.batch_queue =
      [⟨1, 0, DEFAULT_MAX_FEE_PER_PROOF, some 10⟩] := by
  refine ⟨rfl, by decide, rfl⟩

/-- C7 (amended): for every PAYING submission with the user state present,
when the on-chain balance is below the user's accumulated queue fees plus the
new bid, the submission is answered `InsufficientBalance` and the state is
unchanged, so nothing is enqueued; on the non-paying path only a zero (or
unfetchable) replacement-address balance is rejected this way. -/
theorem insufficient_balance_no_enqueue
    (st : BatchState) (addr balance : Nat) (msg : SubmitMsg) (us : UserState)
    (hus : lookupUser st addr = some us)
    (hbal : balance < us.total_fees_in_queue + msg.max_fee) :
    handle_submit_proof_msg st addr balance msg = (SubmitOutcome.insufficientBalance, st) ∧
    handle_nonpaying_msg st addr (some 0) msg = (SubmitOutcome.insufficientBalance, st) := by
  constructor
  · have hv : verify_user_has_enough_balance balance us.total_fees_in_queue msg.max_fee
        = false := by
      unfold verify_user_has_enough_balance
      simp only [decide_eq_false_iff_not]
      omega
    unfold handle_submit_proof_msg
    rw [hus]
    simp [hv]
  · rfl

/-- A one-user state for the balance-check witness. -/
def stBalanceW : BatchState := ⟨[], [(2, ⟨0, 50, 0, 0⟩)]⟩

/-- Witness for the amended C7 theorem: balance 5 cannot cover a bid of 10. -/
theorem insufficient_balance_no_enqueue_witness :
    handle_submit_proof_msg stBalanceW 2 5 ⟨0, 10, some 3⟩ =
      (SubmitOutcome.insufficientBalance, stBalanceW) ∧
    handle_nonpaying_msg stBalanceW 2 (some 0) ⟨0, 10, some 3⟩ =
      (SubmitOutcome.insufficientBalance, stBalanceW) :=
  insufficient_balance_no_enqueue stBalanceW 2 5 ⟨0, 10, some 3⟩ ⟨0, 50, 0, 0⟩
    (by rfl) (by decide)

lemma blockLoop_mem_lt :
    ∀ (l : List Nat) (last x : Nat), x ∈ blockLoop l last → last < x := by
  intro l
  induction l with
  | nil =>
    intro last x h
    simp [blockLoop] at h
  | cons b rest ih =>
    intro last x h
    unfold blockLoop at h
    by_cases hb : b ≤ last
    · rw [if_pos hb] at h
      exact ih last x h
    · rw [if_neg hb] at h
      rcases List.mem_cons.mp h with rfl | h2
      · omega
      · have := ih b x h2
        omega

lemma blockLoop_pairwise :
    ∀ (l : List Nat) (last : Nat), (blockLoop l last).Pairwise (fun a b => a < b) := by
  intro l
  induction l with
  | nil => intro last; simp [blockLoop]
  | cons b rest ih =>
    intro last
    unfold blockLoop
    by_cases hb : b ≤ last
    · rw [if_pos hb]
      exact ih last
    · rw [if_neg hb]
      exact List.Pairwise.cons (fun x hx => blockLoop_mem_lt rest b x hx) (ih b)

lemma blockLoop_sublist :
    ∀ (l : List Nat) (last : Nat), (blockLoop l last).Sublist l := by
  intro l
  induction l with
  | nil => intro last; simp [blockLoop]
  | cons b rest ih =>
    intro last
    unfold blockLoop
    by_cases hb : b ≤ last
    · rw [if_pos hb]
      exact (ih last).trans (List.sublist_cons_self b rest)
    · rw [if_neg hb]
      exact (ih b).cons₂ b

/-- C8 (amended): the block-listening loop processes a subsequence of the
merged notifications in strictly increasing order, so every block number is
processed AT MOST once (duplicates across the primary and fallback
subscriptions are suppressed by `last_seen_block`); a stale number arriving
after a higher one is skipped, not processed. -/
theorem listen_new_blocks_strictly_increasing (notifs : List Nat) :
    (listen_new_blocks notifs).Pairwise (fun a b => a < b) ∧
    (listen_new_blocks notifs).Sublist notifs ∧
    ∀ b, (listen_new_blocks notifs).count b ≤ 1 := by
  refine ⟨blockLoop_pairwise notifs 0, blockLoop_sublist notifs 0, ?_⟩
  have hnd : (listen_new_blocks notifs).Nodup :=
    (blockLoop_pairwise notifs 0).imp (fun h => Nat.ne_of_lt h)
  exact fun b => List.nodup_iff_count_le_one.mp hnd b

/-- C8 counterexample: when block 2 (from one subscription) arrives before
the stale block 1 (from the other), block 1 is observed but processed zero
times — not exactly once. -/
theorem listen_new_blocks_drops_stale_notification :
    listen_new_blocks [2, 1] = [2] ∧ (1 ∈ ([2, 1] : List Nat)) ∧
    (listen_new_blocks [2, 1]).count 1 = 0 := by
  refine ⟨rfl, by decide, by decide⟩

lemma lookup_map_pair (l : List (Nat × UserState)) (addr : Nat)
    (f : Nat → UserState → UserState) :
    (l.map (fun p => (p.1, f p.1 p.2))).lookup addr = (l.lookup addr).map (f addr) := by
  induction l with
  | nil => rfl
  | cons p rest ih =>
    cases hb : (addr == p.1) with
    | true =>
      have hx : addr = p.1 := by simpa using hb
      subst hx
      simp [List.lookup]
    | false =>
      simp [List.lookup, hb, ih]

/-- C10: after `remove_proofs_from_queue`, every address still present in
`user_states` that owns no remaining queue entry has its state reset to
`proof_count = 0`, `last_max_fee_limit = U256::MAX` and
`total_fees_in_queue = 0` while its cached nonce is kept — its next
submission may bid any `max_fee` regardless of earlier bids. -/
theorem remove_proofs_resets_vacated_users
    (st : BatchState) (finalized : List BatchQueueEntry) (addr : Nat) (us : UserState)
    (hus : lookupUser st addr = some us)
    (hempty : ∀ e ∈ (remove_proofs_from_queue st finalized).batch_queue, e.sender ≠ addr) :
    lookupUser (remove_proofs_from_queue st finalized) addr =
      some ⟨us.nonce, U256_MAX, 0, 0⟩ := by
  have hempty2 : ∀ e ∈ finalized.foldl (fun q e => removeEntry q e) st.batch_queue,
      e.sender ≠ addr := hempty
  have hany : (finalized.foldl (fun q e => removeEntry q e) st.batch_queue).any
      (fun e => e.sender == addr) = false := by
    rw [List.any_eq_false]
    intro e he
    simpa using hempty2 e he
  have hnone : calculate_new_user_states_data
      (finalized.foldl (fun q e => removeEntry q e) st.batch_queue) addr = none := by
    unfold calculate_new_user_states_data
    rw [hany]
    simp
  have hmap := lookup_map_pair st.user_states addr
    (fun a u =>
      let d := (calculate_new_user_states_data
        (finalized.foldl (fun q e => removeEntry q e) st.batch_queue) a).getD
          (0, U256_MAX, 0)
      { u with proof_count := d.1, last_max_fee_limit := d.2.1,
               total_fees_in_queue := d.2.2 })
  unfold lookupUser at hus
  calc lookupUser (remove_proofs_from_queue st finalized) addr
      = (st.user_states.lookup addr).map (fun u =>
          let d := (calculate_new_user_states_data
            (finalized.foldl (fun q e => removeEntry q e) st.batch_queue) addr).getD
              (0, U256_MAX, 0)
          { u with proof_count := d.1, last_max_fee_limit := d.2.1,
                   total_fees_in_queue := d.2.2 }) := hmap
    _ = some ⟨us.nonce, U256_MAX, 0, 0⟩ := by
        rw [hus]
        simp [hnone]

/-- A state with one user owning the single queued entry, used for the C10
witness. -/
def stRemoveW : BatchState := ⟨[⟨1, 0, 100, some 10⟩], [(1, ⟨1, 100, 1, 100⟩)]⟩

/-- Witness for C10: removing the user's only proof resets its fee fields
and keeps the cached nonce. -/
theorem remove_proofs_resets_vacated_users_witness :
    lookupUser (remove_proofs_from_queue stRemoveW [⟨1, 0, 100, some 10⟩]) 1 =
      some ⟨1, U256_MAX, 0, 0⟩ :=
  remove_proofs_resets_vacated_users stRemoveW [⟨1, 0, 100, some 10⟩] 1 ⟨1, 100, 1, 100⟩
    (by rfl) (by decide)

end AlignedBatcher
